import Mathlib

/-!
Verification of the odds-pipeline core of the `you_bet` repository.

The Python sources are shallowly embedded: prices are modelled as exact
rationals (`ℚ`), nullable columns as `Option`, database tables as lists of
typed rows, and SQLite statements as pure functions on a `DB` record.
Each definition mirrors one function of the source tree
(`src/export_json.py`, `src/espn_results.py`, `src/oddschecker.py`,
`src/database.py`, `src/results.py`).
-/

namespace YouBet

/-! ## Generic helpers -/

/-- Python truthiness of an optional float: `None` and `0.0` are falsy. -/
def truthy (x : Option ℚ) : Bool :=
  match x with
  | none => false
  | some v => decide (v ≠ 0)

/-- Python substring test helper: does the list start with the needle? -/
def startsWithL : List Char → List Char → Bool
  | _, [] => true
  | [], _ :: _ => false
  | c :: cs, d :: ds => c == d && startsWithL cs ds

/-- Python `needle in hay` contiguous-substring test, on character lists. -/
def containsL : List Char → List Char → Bool
  | [], needle => needle.isEmpty
  | c :: t, needle => startsWithL (c :: t) needle || containsL t needle

/-- Whitespace characters removed by Python `str.strip()`. -/
def isSpaceChar (c : Char) : Bool :=
  c == ' ' || c == '\t' || c == '\n' || c == '\r'

/-- Python `str.strip()` on character lists. -/
def trimL (cs : List Char) : List Char :=
  ((cs.dropWhile isSpaceChar).reverse.dropWhile isSpaceChar).reverse

/-- Python `s[:-n]` for `n ≤ len s`. -/
def dropLastN (cs : List Char) (n : ℕ) : List Char :=
  cs.take (cs.length - n)

/-! ## Team-name matcher (`src/espn_results.py`) -/

/-- The suffix list of `normalize_team_name` in `src/espn_results.py`. -/
def TEAM_SUFFIXES : List (List Char) :=
  [" fc".data, " cf".data, " sc".data, " ac".data, " afc".data, " ssc".data]

/-- Embeds `normalize_team_name` from `src/espn_results.py`: lower-case,
strip whitespace, then the sequential suffix-stripping loop. -/
def normalize_team_name (name : String) : List Char :=
  TEAM_SUFFIXES.foldl
    (fun n suf => if suf.isSuffixOf n then dropLastN n suf.length else n)
    (trimL (name.data.map Char.toLower))

/-- The `TEAM_ALIASES` table of `src/espn_results.py`, verbatim. -/
def TEAM_ALIASES : List (String × List String) :=
  [("man united", ["manchester united"]),
   ("man city", ["manchester city"]),
   ("newcastle", ["newcastle united", "newcastle utd"]),
   ("nottm forest", ["nottingham forest"]),
   ("brighton", ["brighton and hove albion", "brighton & hove albion"]),
   ("tottenham", ["tottenham hotspur"]),
   ("west ham", ["west ham united"]),
   ("wolves", ["wolverhampton wanderers", "wolverhampton"]),
   ("leicester", ["leicester city"]),
   ("atletico madrid", ["atlético madrid", "atletico de madrid", "atlético de madrid"]),
   ("athletic club", ["athletic bilbao", "athletic club bilbao"]),
   ("real betis", ["real betis balompié", "real betis balompie"]),
   ("bayern munich", ["fc bayern munich", "bayern münchen", "fc bayern münchen"]),
   ("rb leipzig", ["rasenballsport leipzig", "rbl leipzig"]),
   ("dortmund", ["borussia dortmund"]),
   ("gladbach", ["borussia mönchengladbach", "borussia monchengladbach"]),
   ("leverkusen", ["bayer leverkusen", "bayer 04 leverkusen"]),
   ("hoffenheim", ["tsg hoffenheim", "1899 hoffenheim"]),
   ("wolfsburg", ["vfl wolfsburg"]),
   ("cologne", ["fc cologne", "1. fc köln", "fc köln", "1. fc koln"]),
   ("st. pauli", ["fc st. pauli", "st pauli"]),
   ("mainz", ["mainz 05", "1. fsv mainz 05"]),
   ("inter", ["internazionale", "inter milan", "fc internazionale milano"]),
   ("ac milan", ["milan"]),
   ("roma", ["as roma"]),
   ("napoli", ["ssc napoli"]),
   ("juventus", ["juventus fc"]),
   ("lazio", ["ss lazio"]),
   ("atalanta", ["atalanta bc"]),
   ("psg", ["paris saint-germain", "paris saint germain", "paris sg"]),
   ("monaco", ["as monaco"]),
   ("lyon", ["olympique lyonnais", "olympique lyon"]),
   ("marseille", ["olympique marseille", "olympique de marseille"]),
   ("lille", ["lille osc", "losc lille"]),
   ("ajax", ["ajax amsterdam", "afc ajax"]),
   ("psv", ["psv eindhoven"]),
   ("feyenoord", ["feyenoord rotterdam"]),
   ("az", ["az alkmaar"]),
   ("sporting", ["sporting cp", "sporting lisbon", "sporting clube de portugal"]),
   ("benfica", ["sl benfica"]),
   ("porto", ["fc porto"]),
   ("young boys", ["bsc young boys"]),
   ("club brugge", ["club brugge kv"]),
   ("anderlecht", ["rsc anderlecht"]),
   ("union sg", ["union saint-gilloise", "royale union saint-gilloise"])]

/-- Embeds `teams_match` from `src/espn_results.py`: direct equality of the
normalized forms, mutual substring containment, then the alias-table loop
(whose entry guard tests the first name against the key or the exact
variant set, while the second name may also be substring-related to a
variant). -/
def teams_match (espn_name db_name : String) : Bool :=
  let e := normalize_team_name espn_name
  let d := normalize_team_name db_name
  if e == d then true
  else if containsL d e || containsL e d then true
  else TEAM_ALIASES.any (fun p =>
    if e == p.1.data || p.2.any (fun v => e == v.data) then
      if d == p.1.data || p.2.any (fun v => d == v.data) then true
      else p.2.any (fun v => d == v.data || containsL d v.data || containsL v.data d)
    else false)

/-- All (key, variant) pairs of the alias table match in both directions
(in particular `teams_match` is symmetric on those pairs). -/
def aliasTableSymmetric : Bool :=
  TEAM_ALIASES.all (fun p => p.2.all (fun v =>
    teams_match p.1 v && teams_match v p.1))

/-! ## Odds normalizer (`src/oddschecker.py`, `_parse_fractional_odds`) -/

/-- Python `s.split(sep)` for a one-character separator, on char lists. -/
def splitOnSep (sep : Char) : List Char → List (List Char)
  | [] => [[]]
  | c :: rest =>
    if c == sep then [] :: splitOnSep sep rest
    else
      match splitOnSep sep rest with
      | h :: t => (c :: h) :: t
      | [] => [[c]]

/-- Numeric value of a digit character. -/
def charDigit (c : Char) : ℕ := c.toNat - 48

/-- Value of a digit run read left to right. -/
def natOfDigits (cs : List Char) : ℕ :=
  cs.foldl (fun acc c => acc * 10 + charDigit c) 0

/-- Value of a digit run read as a fractional part (after the dot). -/
def fracOfDigits (cs : List Char) : ℚ :=
  (natOfDigits cs : ℚ) / (10 : ℚ) ^ cs.length

/-- Magnitude part of the Python `float(s)` model: `[digits][.digits]`,
requiring at least one digit overall. -/
def pyFloatMag (cs : List Char) : Option ℚ :=
  let ip := cs.takeWhile Char.isDigit
  match cs.dropWhile Char.isDigit with
  | [] => if ip.isEmpty then none else some (natOfDigits ip)
  | '.' :: fp =>
    if fp.all Char.isDigit && !(ip.isEmpty && fp.isEmpty) then
      some ((natOfDigits ip : ℚ) + fracOfDigits fp)
    else none
  | _ => none

/-- Model of the Python built-in `float(s)` on plain decimal numerals
(optional sign, digits, optional fractional part); tokens outside this
grammar — the only ones this pipeline feeds it — yield `none`, as the
callers catch `ValueError`. -/
def pyFloat : List Char → Option ℚ
  | '-' :: rest => (pyFloatMag rest).map Neg.neg
  | '+' :: rest => pyFloatMag rest
  | cs => pyFloatMag cs

/-- Python `odds_str.strip().upper()`. -/
def normTok (cs : List Char) : List Char :=
  (trimL cs).map Char.toUpper

/-- Embeds `_parse_fractional_odds` from `src/oddschecker.py` on character
lists: falsy-empty gate, strip+upper, placeholder set, evens markers,
fractional branch (`split("/")`, two parts, `N/D + 1`, division by zero or
`ValueError` caught as `None`), then the decimal branch. -/
def parseOddsChars (cs : List Char) : Option ℚ :=
  if cs.isEmpty then none
  else
    let t := normTok cs
    if t == "SP".data || t == "-".data || t == "".data then none
    else if t == "EVS".data || t == "EVENS".data || t == "EVN".data then some 2
    else if t.any (fun c => c == '/') then
      match splitOnSep '/' t with
      | [n, d] =>
        match pyFloat n, pyFloat d with
        | some nv, some dv => if dv = 0 then none else some (nv / dv + 1)
        | _, _ => none
      | _ => none
    else pyFloat t

/-- Embeds `_parse_fractional_odds` from `src/oddschecker.py`. -/
def parse_fractional_odds (s : String) : Option ℚ :=
  parseOddsChars s.data

/-- The spec's §4.1 taxonomy of "absent" outcomes: empty token, a known
placeholder, or an unparsable token (fraction with non-numeric parts or a
zero denominator, or a non-evens token that is no decimal numeral). -/
def specAbsent (cs : List Char) : Bool :=
  let t := normTok cs
  cs.isEmpty || t.isEmpty || t == "SP".data || t == "-".data ||
    (if t.any (fun c => c == '/') then
      match splitOnSep '/' t with
      | [n, d] => (pyFloat n).isNone || (pyFloat d).isNone || pyFloat d == some 0
      | _ => true
    else
      !(t == "EVS".data || t == "EVENS".data || t == "EVN".data) &&
        (pyFloat t).isNone)

/-- Characters of a plain unsigned decimal numeral. -/
def numChar (c : Char) : Bool :=
  c ∈ ['0', '1', '2', '3', '4', '5', '6', '7', '8', '9', '.']

/-! ## Odds quality filter (`src/export_json.py`, `is_valid_odds_row`) -/

/-- Embeds `is_valid_odds_row(home, draw, away)` from `src/export_json.py`:
`all([home, draw, away])` truthiness gate, equal-triple rejection,
minimum-price `1.02` gate, and overround bounds `[1.00, 1.50]`
(`MIN_OVERROUND = 1.00`, `MAX_OVERROUND = 1.50`). -/
def is_valid_odds_row (home draw away : Option ℚ) : Bool :=
  if truthy home && truthy draw && truthy away then
    match home, draw, away with
    | some h, some d, some a =>
      if h = d ∧ d = a then false
      else if min h (min d a) < 102/100 then false
      else
        if (1/h + 1/d + 1/a) < 1 ∨ (1/h + 1/d + 1/a) > 3/2 then false
        else true
    | _, _, _ => false
  else false

/-- The §4.2 validity predicate exactly as the spec words it: all three
prices present and positive, not all equal, minimum at least 1.02, and
overround inside the inclusive interval `[1.00, 1.50]`. -/
def spec_valid_odds_row (home draw away : Option ℚ) : Prop :=
  ∃ h d a, home = some h ∧ draw = some d ∧ away = some a ∧
    0 < h ∧ 0 < d ∧ 0 < a ∧
    ¬(h = d ∧ d = a) ∧
    102/100 ≤ min h (min d a) ∧
    1 ≤ 1/h + 1/d + 1/a ∧ 1/h + 1/d + 1/a ≤ 3/2

/-! ## Bookmaker deduplication (`src/export_json.py`, `deduplicate_bookmakers`) -/

/-- One odds row as handed to `deduplicate_bookmakers`: bookmaker display
name plus the nullable price triple. -/
structure BkRow where
  bookmaker : String
  home : Option ℚ
  draw : Option ℚ
  away : Option ℚ
deriving DecidableEq

/-- Python `all([home, draw, away])` on a row. -/
def rowTruthy (r : BkRow) : Bool :=
  truthy r.home && truthy r.draw && truthy r.away

/-- The overround `1/home + 1/draw + 1/away` computed by
`deduplicate_bookmakers` (prices are present whenever it is used). -/
def overround (r : BkRow) : ℚ :=
  1 / r.home.getD 0 + 1 / r.draw.getD 0 + 1 / r.away.getD 0

/-- One step of the `by_name` dict update: insertion-ordered association
list, replacing in place when the new overround is strictly lower. -/
def updateByName : List (String × BkRow × ℚ) → String → BkRow → ℚ →
    List (String × BkRow × ℚ)
  | [], name, r, ov => [(name, r, ov)]
  | (n, r0, v0) :: rest, name, r, ov =>
    if n = name then
      if ov < v0 then (n, r, ov) :: rest else (n, r0, v0) :: rest
    else (n, r0, v0) :: updateByName rest name r ov

/-- The row loop of `deduplicate_bookmakers`: rows failing the
`all([home, draw, away])` gate are skipped. -/
def dedupAux : List (String × BkRow × ℚ) → List BkRow → List (String × BkRow × ℚ)
  | acc, [] => acc
  | acc, r :: rest =>
    if rowTruthy r then dedupAux (updateByName acc r.bookmaker r (overround r)) rest
    else dedupAux acc rest

/-- Embeds `deduplicate_bookmakers` from `src/export_json.py`: one row per
bookmaker display name keeping the lowest overround, in dict insertion
order, with the temporary overround field dropped. -/
def deduplicate_bookmakers (odds_rows : List BkRow) : List BkRow :=
  (dedupAux [] odds_rows).map (fun p => p.2.1)

/-- Invariant of one `by_name` entry while `deduplicate_bookmakers` scans
the rows: the stored row carries the entry's name, the cached overround is
the row's overround, the row was seen, and its overround is minimal among
the seen rows of that name. -/
def GoodEntry (seen : List BkRow) (p : String × BkRow × ℚ) : Prop :=
  p.2.1.bookmaker = p.1 ∧ p.2.2 = overround p.2.1 ∧ p.2.1 ∈ seen ∧
    ∀ r2 ∈ seen, r2.bookmaker = p.1 → p.2.2 ≤ overround r2

/-! ## Probability aggregator (`src/export_json.py`, `calculate_probability_stats`) -/

/-- List indexing with default 0, modelling Python `lst[i]` on valid `i`. -/
def nthD : List ℚ → ℕ → ℚ
  | [], _ => 0
  | x :: _, 0 => x
  | _ :: t, n + 1 => nthD t n

/-- Python `lst[i] if i < len(lst) else None`. -/
def optNth : List String → ℕ → Option String
  | [], _ => none
  | x :: _, 0 => some x
  | _ :: t, n + 1 => optNth t n

/-- Python `max(lst)` on a nonempty list (0 as junk value on `[]`). -/
def maxListQ : List ℚ → ℚ
  | [] => 0
  | x :: xs => xs.foldl max x

/-- Python `lst.index(a)` — index of the first occurrence. -/
def firstIdxOf (a : ℚ) : List ℚ → ℕ
  | [] => 0
  | x :: xs => if x = a then 0 else firstIdxOf a xs + 1

/-- Nearest integer with ties to even, the rounding of Python `round`. -/
def roundHalfEven (q : ℚ) : ℤ :=
  if q - ⌊q⌋ < 1/2 then ⌊q⌋
  else if 1/2 < q - ⌊q⌋ then ⌊q⌋ + 1
  else if ⌊q⌋ % 2 = 0 then ⌊q⌋ else ⌊q⌋ + 1

/-- Python `round(q, nd)` on exact rationals. -/
def roundTo (nd : ℕ) (q : ℚ) : ℚ :=
  (roundHalfEven (q * 10 ^ nd) : ℚ) / 10 ^ nd

/-- Python `statistics.median`: sort, middle element, or the mean of the
two middle elements when the length is even. -/
def medianQ (l : List ℚ) : ℚ :=
  let s := List.insertionSort (· ≤ ·) l
  if s.length % 2 = 1 then nthD s (s.length / 2)
  else (nthD s (s.length / 2 - 1) + nthD s (s.length / 2)) / 2

/-- Embeds `calculate_implied_probability` from `src/export_json.py`:
`None` for falsy or non-positive odds, else the reciprocal. -/
def calculate_implied_probability (decimal_odds : ℚ) : Option ℚ :=
  if decimal_odds = 0 ∨ decimal_odds ≤ 0 then none
  else some (1 / decimal_odds)

/-- The output record of `calculate_probability_stats`. The three
probability fields are `Option`: the source would raise on `round(None, 4)`
there, which is unreachable (proved below), so the model keeps them
nullable instead of crashing. -/
structure ProbStats where
  median_odds : ℚ
  median_prob : Option ℚ
  mean_odds : ℚ
  mean_prob : Option ℚ
  best_odds : ℚ
  best_prob : Option ℚ
  best_bookmaker : Option String
deriving DecidableEq

/-- Embeds `calculate_probability_stats` from `src/export_json.py`:
`None` on an empty list or when no entry survives the `o and o > 0`
filter; median and mean of the filtered list; best odds looked up by
`odds_list.index(max(odds_list))` in the unfiltered list with the parallel
bookmaker name (None when the index exceeds the name list). -/
def calculate_probability_stats (odds_list : List ℚ) (bookmaker_list : List String) :
    Option ProbStats :=
  if odds_list.isEmpty then none
  else
    let valid_odds := odds_list.filter (fun o => !(o == 0) && decide (0 < o))
    if valid_odds.isEmpty then none
    else
      let median_odds := medianQ valid_odds
      let mean_odds := valid_odds.sum / (valid_odds.length : ℚ)
      let best_idx := firstIdxOf (maxListQ odds_list) odds_list
      let best_odds := nthD odds_list best_idx
      some {
        median_odds := roundTo 2 median_odds
        median_prob := (calculate_implied_probability median_odds).map (roundTo 4)
        mean_odds := roundTo 2 mean_odds
        mean_prob := (calculate_implied_probability mean_odds).map (roundTo 4)
        best_odds := roundTo 2 best_odds
        best_prob := (calculate_implied_probability best_odds).map (roundTo 4)
        best_bookmaker := optNth bookmaker_list best_idx }

/-! ## Relational store model (`src/database.py`) -/

/-- A row of the `leagues` table. -/
structure LeagueRow where
  id : ℕ
  key : String
  name : String
  country : Option String
deriving DecidableEq

/-- A row of the `bookmakers` table. -/
structure BookmakerRow where
  id : ℕ
  key : String
  name : String
deriving DecidableEq

/-- A row of the `matches` table; kickoff instants are modelled as
integers. -/
structure MatchRow where
  id : ℕ
  league_id : ℕ
  home_team : String
  away_team : String
  commence_time : ℤ
  status : String
  external_id : Option String
deriving DecidableEq

/-- A row of the `odds` table; rows are stored in insertion order, which
models the `scraped_at` timestamp order of the source. -/
structure OddsRow where
  match_id : ℕ
  bookmaker_id : ℕ
  home_win : ℚ
  draw : Option ℚ
  away_win : ℚ
  source : String
deriving DecidableEq

/-- A row of the `results` table (`match_id` is UNIQUE). -/
structure ResultRow where
  match_id : ℕ
  home_score : ℤ
  away_score : ℤ
  outcome : String
  source : Option String
deriving DecidableEq

/-- The SQLite store as lists of rows; because every write helper in
`src/database.py` ends in `conn.commit()`, the record always holds the
committed state. -/
structure DB where
  leagues : List LeagueRow
  bookmakers : List BookmakerRow
  fixtures : List MatchRow
  odds : List OddsRow
  results : List ResultRow
deriving DecidableEq

/-- Embeds `get_or_create_league` from `src/database.py`: look up by key,
else insert (and commit) a fresh row. -/
def get_or_create_league (db : DB) (key name : String) (country : Option String) :
    ℕ × DB :=
  match db.leagues.find? (fun l => l.key == key) with
  | some l => (l.id, db)
  | none =>
    (db.leagues.length + 1,
      { db with leagues := db.leagues ++ [⟨db.leagues.length + 1, key, name, country⟩] })

/-- Embeds `get_or_create_bookmaker` from `src/database.py`. -/
def get_or_create_bookmaker (db : DB) (key name : String) : ℕ × DB :=
  match db.bookmakers.find? (fun b => b.key == key) with
  | some b => (b.id, db)
  | none =>
    (db.bookmakers.length + 1,
      { db with bookmakers := db.bookmakers ++ [⟨db.bookmakers.length + 1, key, name⟩] })

/-- Embeds `get_or_create_match` from `src/database.py`: look up by the
natural key (home, away, commence time); on a hit, backfill a missing
`external_id` when one is supplied; otherwise insert. -/
def get_or_create_match (db : DB) (league_id : ℕ) (home away : String) (ct : ℤ)
    (ext : Option String) : ℕ × DB :=
  match db.fixtures.find? (fun m =>
      m.home_team == home && m.away_team == away && m.commence_time == ct) with
  | some m =>
    match ext with
    | some e =>
      (m.id, { db with fixtures := db.fixtures.map (fun r =>
        if r.id == m.id && r.external_id.isNone then { r with external_id := some e }
        else r) })
    | none => (m.id, db)
  | none =>
    (db.fixtures.length + 1,
      { db with fixtures := db.fixtures ++
        [⟨db.fixtures.length + 1, league_id, home, away, ct, "upcoming", ext⟩] })

/-- Embeds `insert_odds` from `src/database.py`: append-only snapshot. -/
def insert_odds (db : DB) (mid bid : ℕ) (hw : ℚ) (dr : Option ℚ) (aw : ℚ)
    (src : String) : DB :=
  { db with odds := db.odds ++ [⟨mid, bid, hw, dr, aw, src⟩] }

/-- The `ORDER BY scraped_at DESC LIMIT 1` lookup of `odds_changed`: the
most recently inserted snapshot for the (fixture, bookmaker) pair. -/
def lastSnapshot (db : DB) (mid bid : ℕ) : Option OddsRow :=
  (db.odds.filter (fun o => o.match_id == mid && o.bookmaker_id == bid)).getLast?

/-- Embeds `odds_changed` from `src/database.py`: `True` with no prior
snapshot; otherwise home and away are compared against the 0.001
tolerance, and the draw prices are compared only when both are present. -/
def odds_changed (db : DB) (mid bid : ℕ) (hw : ℚ) (dr : Option ℚ) (aw : ℚ) : Bool :=
  match lastSnapshot db mid bid with
  | none => true
  | some row =>
    if 1/1000 < |row.home_win - hw| then true
    else if (match dr, row.draw with
             | some nd, some pd => decide (1/1000 < |pd - nd|)
             | _, _ => false) then true
    else if 1/1000 < |row.away_win - aw| then true
    else false

/-- Embeds `insert_result` from `src/database.py`: outcome derived from the
scores, `INSERT OR REPLACE` on the UNIQUE `match_id`, and the fixture
status set to completed. -/
def insert_result (db : DB) (mid : ℕ) (home_score away_score : ℤ)
    (src : Option String) : DB :=
  { db with
    results := db.results.filter (fun r => !(r.match_id == mid)) ++
      [⟨mid, home_score, away_score,
        if home_score > away_score then "home"
        else if away_score > home_score then "away" else "draw", src⟩],
    fixtures := db.fixtures.map (fun m =>
      if m.id == mid then { m with status := "completed" } else m) }

/-! ## Odds collection units (`src/results.py`, `collect_odds_from_api`) -/

/-- One bookmaker entry of a fetched match, already field-accessed. -/
structure OddsInfo where
  bookmaker_key : String
  bookmaker_name : String
  home_win : ℚ
  draw : Option ℚ
  away_win : ℚ
deriving DecidableEq

/-- The fixture descriptor of a fetched match. -/
structure MatchInfo where
  home_team : String
  away_team : String
  commence_time : ℤ
  external_id : Option String
deriving DecidableEq

/-- One unit of work of `collect_odds_from_api`: a fetched match with its
league configuration and bookmaker odds list; a `none` entry stands for a
malformed upstream record whose field access raises inside the unit. -/
structure FetchedMatch where
  league_key : String
  league_name : String
  league_country : Option String
  match_info : MatchInfo
  odds_list : List (Option OddsInfo)
deriving DecidableEq

/-- The `stats` dict of `collect_odds_from_api`. -/
structure CollectStats where
  matchesCount : ℕ
  odds_snapshots : ℕ
  errors : ℕ
deriving DecidableEq

/-- The per-bookmaker body of the odds loop in `collect_odds_from_api`:
get-or-create the bookmaker, then insert a snapshot only if `odds_changed`;
the flag reports whether a snapshot was written. -/
def processOddsOne (db : DB) (mid : ℕ) (oi : OddsInfo) : DB × Bool :=
  let r := get_or_create_bookmaker db oi.bookmaker_key oi.bookmaker_name
  if odds_changed r.2 mid r.1 oi.home_win oi.draw oi.away_win then
    (insert_odds r.2 mid r.1 oi.home_win oi.draw oi.away_win "odds_api", true)
  else (r.2, false)

/-- The odds loop of one unit: a malformed (`none`) record raises, ending
the unit with the writes made so far committed; returns the resulting
state, the snapshots written, and the error flag. -/
def processOddsList (db : DB) (mid : ℕ) : List (Option OddsInfo) → DB × ℕ × Bool
  | [] => (db, 0, false)
  | none :: _ => (db, 0, true)
  | some oi :: rest =>
    let r := processOddsOne db mid oi
    let s := processOddsList r.1 mid rest
    (s.1, (if r.2 then 1 else 0) + s.2.1, s.2.2)

/-- One unit of `collect_odds_from_api`: league and match get-or-create
(each committing), then the odds loop; any error is caught at the unit
boundary by the `except` clause. Returns (state, snapshots, errored). -/
def processUnit (db : DB) (u : FetchedMatch) : DB × ℕ × Bool :=
  let rl := get_or_create_league db u.league_key u.league_name u.league_country
  let rm := get_or_create_match rl.2 rl.1 u.match_info.home_team u.match_info.away_team
    u.match_info.commence_time u.match_info.external_id
  let ro := processOddsList rm.2 rm.1 u.odds_list
  (ro.1, ro.2.1, ro.2.2)

/-- Embeds `collect_odds_from_api` from `src/results.py`: each unit is
processed against the state left by the previous one, an errored unit adds
one to the error tally, and the loop always continues. -/
def collect_odds_from_api (db : DB) : List FetchedMatch → DB × CollectStats
  | [] => (db, ⟨0, 0, 0⟩)
  | u :: rest =>
    let r := processUnit db u
    let s := collect_odds_from_api r.1 rest
    (s.1, ⟨1 + s.2.matchesCount, r.2.1 + s.2.odds_snapshots,
      (if r.2.2 then 1 else 0) + s.2.errors⟩)

/-! ## Result reconciliation (`src/espn_results.py`, `update_from_known_results`) -/

/-- One externally sourced result report. -/
structure ResultReport where
  home_team : String
  away_team : String
  home_score : ℤ
  away_score : ℤ
deriving DecidableEq

/-- The candidate query of `update_from_known_results`: `upcoming` fixtures
ordered by most recent kickoff first (`ORDER BY commence_time DESC`). -/
def upcomingByRecency (db : DB) : List MatchRow :=
  List.insertionSort (fun m1 m2 => m2.commence_time ≤ m1.commence_time)
    (db.fixtures.filter (fun m => m.status == "upcoming"))

/-- The candidate scan of `update_from_known_results`: first fixture whose
home and away names both satisfy `teams_match`. -/
def findMatchId (db : DB) (rep : ResultReport) : Option ℕ :=
  ((upcomingByRecency db).find? (fun m =>
    teams_match rep.home_team m.home_team &&
      teams_match rep.away_team m.away_team)).map (fun m => m.id)

/-- The `SELECT id FROM results WHERE match_id = ?` existence check. -/
def hasResult (db : DB) (mid : ℕ) : Bool :=
  db.results.any (fun r => r.match_id == mid)

/-- The `stats` dict of `update_from_known_results`. -/
structure UpdateStats where
  matched : ℕ
  updated : ℕ
  not_found : List String
deriving DecidableEq

/-- The per-report body of `update_from_known_results`: find the fixture;
if found and a result exists, skip; if found and none exists, insert the
result (source `espn`); else record the report as not found. Returns
(state, matched, updated, notFound). -/
def processReport (db : DB) (rep : ResultReport) : DB × Bool × Bool × Bool :=
  match findMatchId db rep with
  | some mid =>
    if hasResult db mid then (db, true, false, false)
    else (insert_result db mid rep.home_score rep.away_score (some "espn"),
      true, true, false)
  | none => (db, false, false, true)

/-- Embeds `update_from_known_results` from `src/espn_results.py`. -/
def update_from_known_results (db : DB) : List ResultReport → DB × UpdateStats
  | [] => (db, ⟨0, 0, []⟩)
  | rep :: rest =>
    let r := processReport db rep
    let s := update_from_known_results r.1 rest
    (s.1, ⟨(if r.2.1 then 1 else 0) + s.2.matched,
      (if r.2.2.1 then 1 else 0) + s.2.updated,
      (if r.2.2.2 then [rep.home_team ++ " vs " ++ rep.away_team] else []) ++
        s.2.not_found⟩)

end YouBet

namespace YouBet

theorem truthy_some_iff (v : ℚ) : truthy (some v) = true ↔ v ≠ 0 := by
  simp [truthy]

end YouBet

/-- C2: the quality filter accepts a row iff all three prices are present
and positive, the three are not all equal, the minimum is at least 1.02 and
the overround lies in the inclusive interval [1.00, 1.50]. -/
theorem C2_is_valid_odds_row_iff (home draw away : Option ℚ) :
    YouBet.is_valid_odds_row home draw away = true ↔
      YouBet.spec_valid_odds_row home draw away := by
  constructor
  · intro hcode
    match home, draw, away with
    | none, _, _ => simp [YouBet.is_valid_odds_row, YouBet.truthy] at hcode
    | some h, none, _ => simp [YouBet.is_valid_odds_row, YouBet.truthy] at hcode
    | some h, some d, none => simp [YouBet.is_valid_odds_row, YouBet.truthy] at hcode
    | some h, some d, some a =>
      rw [YouBet.is_valid_odds_row] at hcode
      by_cases ht : (YouBet.truthy (some h) && YouBet.truthy (some d) && YouBet.truthy (some a)) = true
      · rw [if_pos ht] at hcode
        split_ifs at hcode with h1 h2 h3
        push_neg at h2 h3
        refine ⟨h, d, a, rfl, rfl, rfl, ?_, ?_, ?_, h1, h2, h3.1, h3.2⟩
        · have hmin : (102/100 : ℚ) ≤ h := le_trans h2 (min_le_left _ _)
          linarith
        · have hmin : (102/100 : ℚ) ≤ d :=
            le_trans h2 (le_trans (min_le_right _ _) (min_le_left _ _))
          linarith
        · have hmin : (102/100 : ℚ) ≤ a :=
            le_trans h2 (le_trans (min_le_right _ _) (min_le_right _ _))
          linarith
      · rw [if_neg ht] at hcode
        exact absurd hcode (by decide)
  · rintro ⟨h, d, a, rfl, rfl, rfl, hh, hd, ha, hne, hmin, hlo, hhi⟩
    rw [YouBet.is_valid_odds_row]
    have t1 : YouBet.truthy (some h) = true := (YouBet.truthy_some_iff h).mpr (ne_of_gt hh)
    have t2 : YouBet.truthy (some d) = true := (YouBet.truthy_some_iff d).mpr (ne_of_gt hd)
    have t3 : YouBet.truthy (some a) = true := (YouBet.truthy_some_iff a).mpr (ne_of_gt ha)
    have ht : (YouBet.truthy (some h) && YouBet.truthy (some d) && YouBet.truthy (some a)) = true := by
      rw [t1, t2, t3]; rfl
    rw [if_pos ht]
    rw [if_neg hne, if_neg (not_lt.mpr hmin), if_neg (by push_neg; exact ⟨hlo, hhi⟩)]

/-- C1 (counterexample): the team-name match predicate is not symmetric for
every pair of strings — a name that strictly contains an alias variant
matches the alias key in one direction only. -/
theorem C1_counterexample :
    YouBet.teams_match "nottm forest" "nottingham forest reserves" = true ∧
    YouBet.teams_match "nottingham forest reserves" "nottm forest" = false := by
  decide

/-- C1 (amended): the match predicate agrees in both directions (indeed both
return true) for every alias-table key paired with each of its variants;
general symmetry fails only on names merely substring-related to a variant. -/
theorem C1_alias_pairs_symmetric : YouBet.aliasTableSymmetric = true := by
  decide

namespace YouBet

theorem beq_false_of_mem_not_mem {l₁ l₂ : List Char} {c : Char}
    (hc : c ∈ l₂) (hnc : c ∉ l₁) : (l₁ == l₂) = false := by
  rw [beq_eq_false_iff_ne]
  intro h
  subst h
  exact hnc hc

theorem numChar_cases {c : Char} (h : numChar c = true) :
    c = '0' ∨ c = '1' ∨ c = '2' ∨ c = '3' ∨ c = '4' ∨ c = '5' ∨ c = '6' ∨
    c = '7' ∨ c = '8' ∨ c = '9' ∨ c = '.' := by
  simpa [numChar] using h

theorem numChar_toUpper {c : Char} (h : numChar c = true) : Char.toUpper c = c := by
  rcases numChar_cases h with rfl|rfl|rfl|rfl|rfl|rfl|rfl|rfl|rfl|rfl|rfl <;> decide

theorem numChar_space {c : Char} (h : numChar c = true) : isSpaceChar c = false := by
  rcases numChar_cases h with rfl|rfl|rfl|rfl|rfl|rfl|rfl|rfl|rfl|rfl|rfl <;> decide

theorem numChar_slash {c : Char} (h : numChar c = true) : (c == '/') = false := by
  rcases numChar_cases h with rfl|rfl|rfl|rfl|rfl|rfl|rfl|rfl|rfl|rfl|rfl <;> decide

theorem not_mem_of_all_numChar {cs : List Char} (h : cs.all numChar = true)
    {c : Char} (hc : numChar c = false) : c ∉ cs := by
  intro hmem
  have h2 := List.all_eq_true.mp h c hmem
  rw [hc] at h2
  cases h2

theorem map_toUpper_eq_self {cs : List Char} (h : ∀ c ∈ cs, Char.toUpper c = c) :
    cs.map Char.toUpper = cs := by
  induction cs with
  | nil => rfl
  | cons c t ih =>
    rw [List.map_cons, h c (List.mem_cons_self c t),
      ih (fun x hx => h x (List.mem_cons_of_mem c hx))]

theorem dropWhile_no_space {cs : List Char} (h : ∀ c ∈ cs, isSpaceChar c = false) :
    cs.dropWhile isSpaceChar = cs := by
  cases cs with
  | nil => rfl
  | cons c t => simp [List.dropWhile_cons, h c (List.mem_cons_self c t)]

theorem trimL_eq_self {cs : List Char} (h : ∀ c ∈ cs, isSpaceChar c = false) :
    trimL cs = cs := by
  unfold trimL
  rw [dropWhile_no_space h,
    dropWhile_no_space (fun c hc => h c (List.mem_reverse.mp hc)),
    List.reverse_reverse]

theorem normTok_eq_self {cs : List Char}
    (hs : ∀ c ∈ cs, isSpaceChar c = false) (hu : ∀ c ∈ cs, Char.toUpper c = c) :
    normTok cs = cs := by
  unfold normTok
  rw [trimL_eq_self hs, map_toUpper_eq_self hu]

theorem splitOnSep_no_sep {sep : Char} {cs : List Char}
    (h : ∀ c ∈ cs, (c == sep) = false) : splitOnSep sep cs = [cs] := by
  induction cs with
  | nil => rfl
  | cons c t ih =>
    have hc := h c (List.mem_cons_self c t)
    simp only [splitOnSep, hc, Bool.false_eq_true, if_false]
    rw [ih (fun x hx => h x (List.mem_cons_of_mem c hx))]

theorem splitOnSep_append {sep : Char} {n d : List Char}
    (hn : ∀ c ∈ n, (c == sep) = false) (hd : ∀ c ∈ d, (c == sep) = false) :
    splitOnSep sep (n ++ sep :: d) = [n, d] := by
  induction n with
  | nil =>
    simp only [List.nil_append, splitOnSep, beq_self_eq_true, if_true]
    rw [splitOnSep_no_sep hd]
  | cons c t ih =>
    have hc := hn c (List.mem_cons_self c t)
    simp only [List.cons_append, splitOnSep, hc, Bool.false_eq_true, if_false,
      List.append_eq]
    rw [ih (fun x hx => hn x (List.mem_cons_of_mem c hx))]

end YouBet

namespace YouBet

theorem parseOddsChars_fractional {n d : List Char} {nv dv : ℚ}
    (hn : n.all numChar = true) (hd : d.all numChar = true)
    (hpn : pyFloat n = some nv) (hpd : pyFloat d = some dv) :
    parseOddsChars (n ++ '/' :: d) = if dv = 0 then none else some (nv / dv + 1) := by
  have hmem : ∀ c ∈ n ++ '/' :: d, numChar c = true ∨ c = '/' := by
    intro c hc
    rcases List.mem_append.mp hc with h1 | h2
    · exact Or.inl (List.all_eq_true.mp hn c h1)
    · rcases List.mem_cons.mp h2 with rfl | h3
      · exact Or.inr rfl
      · exact Or.inl (List.all_eq_true.mp hd c h3)
  have hnotmem : ∀ c : Char, numChar c = false → c ≠ '/' → c ∉ n ++ '/' :: d := by
    intro c h1 h2 hc
    rcases hmem c hc with h3 | rfl
    · rw [h1] at h3; cases h3
    · exact h2 rfl
  have hne : n ++ '/' :: d ≠ [] := by cases n <;> simp
  have hemp : (n ++ '/' :: d).isEmpty = false := by
    cases h : n ++ '/' :: d with
    | nil => exact absurd h hne
    | cons a t => rfl
  have htok : normTok (n ++ '/' :: d) = n ++ '/' :: d :=
    normTok_eq_self
      (fun c hc => by rcases hmem c hc with h | rfl
                      · exact numChar_space h
                      · decide)
      (fun c hc => by rcases hmem c hc with h | rfl
                      · exact numChar_toUpper h
                      · decide)
  have hSP : ((n ++ '/' :: d) == "SP".data) = false :=
    beq_false_of_mem_not_mem (c := 'S') (by decide) (hnotmem 'S' (by decide) (by decide))
  have hdash : ((n ++ '/' :: d) == "-".data) = false :=
    beq_false_of_mem_not_mem (c := '-') (by decide) (hnotmem '-' (by decide) (by decide))
  have hempty2 : ((n ++ '/' :: d) == "".data) = false := beq_eq_false_iff_ne.mpr hne
  have hEVS : ((n ++ '/' :: d) == "EVS".data) = false :=
    beq_false_of_mem_not_mem (c := 'E') (by decide) (hnotmem 'E' (by decide) (by decide))
  have hEVENS : ((n ++ '/' :: d) == "EVENS".data) = false :=
    beq_false_of_mem_not_mem (c := 'E') (by decide) (hnotmem 'E' (by decide) (by decide))
  have hEVN : ((n ++ '/' :: d) == "EVN".data) = false :=
    beq_false_of_mem_not_mem (c := 'E') (by decide) (hnotmem 'E' (by decide) (by decide))
  have hslash : ((n ++ '/' :: d).any (fun c => c == '/')) = true :=
    List.any_eq_true.mpr ⟨'/', List.mem_append_right n (List.mem_cons_self '/' d), by decide⟩
  have hsplit : splitOnSep '/' (n ++ '/' :: d) = [n, d] :=
    splitOnSep_append
      (fun c hc => numChar_slash (List.all_eq_true.mp hn c hc))
      (fun c hc => numChar_slash (List.all_eq_true.mp hd c hc))
  rw [parseOddsChars, hemp]
  simp only [Bool.false_eq_true, if_false, htok, hSP, hdash, hempty2, hEVS, hEVENS, hEVN,
    Bool.or_self, Bool.or_false, hslash, if_true]
  rw [hsplit]
  simp only [hpn, hpd]

theorem parseOddsChars_decimal {cs : List Char}
    (h : cs.all numChar = true) (hne : cs ≠ []) :
    parseOddsChars cs = pyFloat cs := by
  have hemp : cs.isEmpty = false := by
    cases h2 : cs with
    | nil => exact absurd h2 hne
    | cons a t => rfl
  have htok : normTok cs = cs :=
    normTok_eq_self
      (fun c hc => numChar_space (List.all_eq_true.mp h c hc))
      (fun c hc => numChar_toUpper (List.all_eq_true.mp h c hc))
  have hSP : (cs == "SP".data) = false :=
    beq_false_of_mem_not_mem (c := 'S') (by decide) (not_mem_of_all_numChar h (by decide))
  have hdash : (cs == "-".data) = false :=
    beq_false_of_mem_not_mem (c := '-') (by decide) (not_mem_of_all_numChar h (by decide))
  have hempty2 : (cs == "".data) = false := beq_eq_false_iff_ne.mpr hne
  have hEVS : (cs == "EVS".data) = false :=
    beq_false_of_mem_not_mem (c := 'E') (by decide) (not_mem_of_all_numChar h (by decide))
  have hEVENS : (cs == "EVENS".data) = false :=
    beq_false_of_mem_not_mem (c := 'E') (by decide) (not_mem_of_all_numChar h (by decide))
  have hEVN : (cs == "EVN".data) = false :=
    beq_false_of_mem_not_mem (c := 'E') (by decide) (not_mem_of_all_numChar h (by decide))
  have hslash : (cs.any (fun c => c == '/')) = false := by
    rw [Bool.eq_false_iff]
    intro h2
    obtain ⟨c, hc, hceq⟩ := List.any_eq_true.mp h2
    have h3 := numChar_slash (List.all_eq_true.mp h c hc)
    rw [h3] at hceq
    cases hceq
  rw [parseOddsChars, hemp]
  simp only [Bool.false_eq_true, if_false, htok, hSP, hdash, hempty2, hEVS, hEVENS, hEVN,
    Bool.or_self, Bool.or_false, hslash]

end YouBet

/-- C6: the normalizer computes `N/D + 1` on fractional tokens with numeric
parts and nonzero denominator (a zero denominator yields absent), exactly
`2.0` on the evens markers EVS/EVENS/EVN, and the decimal-numeral value on
any other numeric token, with failures yielding absent; in particular
"3/1" gives 4.0, "11/10" gives 2.1, "EVS" gives 2.0, "" and "SP" absent. -/
theorem C6_normalizer_computation :
    (∀ (n d : List Char) (nv dv : ℚ), n.all YouBet.numChar = true →
        d.all YouBet.numChar = true →
        YouBet.pyFloat n = some nv → YouBet.pyFloat d = some dv →
        YouBet.parseOddsChars (n ++ '/' :: d) =
          if dv = 0 then none else some (nv / dv + 1)) ∧
    (∀ cs : List Char, cs.all YouBet.numChar = true → cs ≠ [] →
        YouBet.parseOddsChars cs = YouBet.pyFloat cs) ∧
    YouBet.parse_fractional_odds "EVS" = some 2 ∧
    YouBet.parse_fractional_odds "EVENS" = some 2 ∧
    YouBet.parse_fractional_odds "EVN" = some 2 ∧
    YouBet.parse_fractional_odds "" = none ∧
    YouBet.parse_fractional_odds "SP" = none ∧
    YouBet.parse_fractional_odds "3/1" = some 4 ∧
    YouBet.parse_fractional_odds "11/10" = some (21/10) := by
  refine ⟨?_, ?_, ?_, ?_, ?_, ?_, ?_, ?_, ?_⟩
  · intro n d nv dv hn hd hpn hpd
    exact YouBet.parseOddsChars_fractional hn hd hpn hpd
  · intro cs h hne
    exact YouBet.parseOddsChars_decimal h hne
  · decide
  · decide
  · decide
  · decide
  · decide
  · have h := @YouBet.parseOddsChars_fractional ['3'] ['1'] 3 1 (by decide) (by decide)
      (by decide) (by decide)
    have hdata : "3/1".data = ['3'] ++ '/' :: ['1'] := by decide
    rw [YouBet.parse_fractional_odds, hdata, h]
    norm_num
  · have h := @YouBet.parseOddsChars_fractional ['1', '1'] ['1', '0'] 11 10 (by decide)
      (by decide) (by decide) (by decide)
    have hdata : "11/10".data = ['1', '1'] ++ '/' :: ['1', '0'] := by decide
    rw [YouBet.parse_fractional_odds, hdata, h]
    norm_num

/-- C6 (witness): the fractional law applied at the concrete token "7/2". -/
theorem C6_witness :
    YouBet.parseOddsChars ('7' :: '/' :: ['2']) =
      if (2 : ℚ) = 0 then none else some ((7 : ℚ) / 2 + 1) :=
  C6_normalizer_computation.1 ['7'] ['2'] 7 2 (by decide) (by decide) (by decide) (by decide)

namespace YouBet

theorem beq_nil_eq_isEmpty (l : List Char) : (l == "".data) = l.isEmpty := by
  cases l <;> rfl

theorem parseOddsChars_none_iff (cs : List Char) :
    parseOddsChars cs = none ↔ specAbsent cs = true := by
  cases cs with
  | nil => rw [parseOddsChars, specAbsent]; simp
  | cons c rest =>
    rw [parseOddsChars, specAbsent]
    simp only [List.isEmpty_cons, Bool.false_eq_true, if_false, Bool.false_or]
    set t := normTok (c :: rest) with ht
    have he : (t == "".data) = t.isEmpty := beq_nil_eq_isEmpty t
    by_cases hsp : (t == "SP".data || t == "-".data || t == "".data) = true
    · rw [if_pos hsp]
      simp only [Bool.or_eq_true] at hsp
      rcases hsp with (h1 | h2) | h3
      · simp [h1]
      · simp [h2]
      · rw [he] at h3
        simp [h3]
    · rw [if_neg hsp]
      simp only [Bool.or_eq_true, not_or, Bool.not_eq_true] at hsp
      obtain ⟨⟨h1, h2⟩, h3⟩ := hsp
      have hie : t.isEmpty = false := he ▸ h3
      simp only [h1, h2, hie, Bool.false_or]
      by_cases hev : (t == "EVS".data || t == "EVENS".data || t == "EVN".data) = true
      · rw [if_pos hev]
        simp only [Bool.or_eq_true] at hev
        rcases hev with (h4 | h4) | h4 <;> rw [eq_of_beq h4] <;> decide
      · rw [if_neg hev]
        simp only [Bool.or_eq_true, not_or, Bool.not_eq_true] at hev
        obtain ⟨⟨h4, h5⟩, h6⟩ := hev
        by_cases hsl : ((t.any fun x => x == '/') = true)
        · rw [if_pos hsl, if_pos hsl]
          cases hspl : splitOnSep '/' t with
          | nil => simp
          | cons n tl =>
            cases tl with
            | nil => simp
            | cons d tl2 =>
              cases tl2 with
              | nil =>
                cases hpn : pyFloat n with
                | none => simp [hpn]
                | some nv =>
                  cases hpd : pyFloat d with
                  | none => simp [hpn, hpd]
                  | some dv =>
                    by_cases hz : dv = 0
                    · subst hz
                      simp [hpn, hpd]
                    · simp [hpn, hpd, hz]
              | cons e tl3 => simp
        · rw [if_neg hsl, if_neg hsl]
          simp only [h4, h5, h6, Bool.or_self, Bool.or_false, Bool.not_false, Bool.true_and]
          exact Option.isNone_iff_eq_none.symm

end YouBet

/-- C5 (amended): for every input token the normalizer yields either absent
or a decimal price (which may be below 1.0); absent is produced exactly
when the token is empty, a known placeholder (SP, -), or unparsable (a
fraction with non-numeric parts or a zero denominator, or a non-evens token
that is no decimal numeral). -/
theorem C5_absent_iff (s : String) :
    YouBet.parse_fractional_odds s = none ↔ YouBet.specAbsent s.data = true :=
  YouBet.parseOddsChars_none_iff s.data

/-- C5 (counterexample): the claim that every present output is ≥ 1.0 fails —
the decimal token "0.5" parses to the price 0.5 < 1.0. -/
theorem C5_counterexample :
    YouBet.parse_fractional_odds "0.5" = some (1/2) ∧ ((1 : ℚ)/2) < 1 := by
  constructor
  · have h := @YouBet.parseOddsChars_decimal ['0', '.', '5'] (by decide) (by decide)
    have hdata : "0.5".data = ['0', '.', '5'] := by decide
    rw [YouBet.parse_fractional_odds, hdata, h]
    have h2 : YouBet.pyFloat ['0', '.', '5'] =
        some ((YouBet.natOfDigits ['0'] : ℚ) + YouBet.fracOfDigits ['5']) := rfl
    have e1 : YouBet.natOfDigits ['0'] = 0 := by decide
    have e2 : YouBet.natOfDigits ['5'] = 5 := by decide
    rw [h2, YouBet.fracOfDigits, e1, e2]
    norm_num
  · norm_num

namespace YouBet

theorem odds_changed_some (db : DB) (mid bid : ℕ) (prev : OddsRow)
    (hw : ℚ) (dr : Option ℚ) (aw : ℚ) (h : lastSnapshot db mid bid = some prev) :
    odds_changed db mid bid hw dr aw =
      (if 1/1000 < |prev.home_win - hw| then true
       else if (match dr, prev.draw with
                | some nd, some pd => decide (1/1000 < |pd - nd|)
                | _, _ => false) then true
       else if 1/1000 < |prev.away_win - aw| then true
       else false) := by
  rw [odds_changed, h]

end YouBet

/-- C10: for every (fixture, bookmaker) pair with no stored odds snapshot,
the change check returns true for any proposed triple, so the first odds
observation for a pair is always written. -/
theorem C10_first_snapshot_always_written (db : YouBet.DB) (mid bid : ℕ)
    (hw : ℚ) (dr : Option ℚ) (aw : ℚ)
    (h : YouBet.lastSnapshot db mid bid = none) :
    YouBet.odds_changed db mid bid hw dr aw = true := by
  rw [YouBet.odds_changed, h]

/-- C10 (witness): the change check on an empty store. -/
theorem C10_witness :
    YouBet.odds_changed ⟨[], [], [], [], []⟩ 1 1 2 none 3 = true :=
  C10_first_snapshot_always_written ⟨[], [], [], [], []⟩ 1 1 2 none 3 (by decide)

/-- C4 (amended): given a most recent stored snapshot for the pair, a new
snapshot is written iff the home price differs by more than 0.001, the away
price differs by more than 0.001, or both draw prices are present and
differ by more than 0.001; a draw price appearing where the stored draw was
absent, or disappearing, does not by itself trigger a write. -/
theorem C4_odds_changed_iff (db : YouBet.DB) (mid bid : ℕ) (prev : YouBet.OddsRow)
    (hw : ℚ) (dr : Option ℚ) (aw : ℚ)
    (h : YouBet.lastSnapshot db mid bid = some prev) :
    YouBet.odds_changed db mid bid hw dr aw = true ↔
      (1/1000 < |prev.home_win - hw| ∨ 1/1000 < |prev.away_win - aw| ∨
        ∃ pd nd, prev.draw = some pd ∧ dr = some nd ∧ 1/1000 < |pd - nd|) := by
  rw [YouBet.odds_changed_some db mid bid prev hw dr aw h]
  obtain ⟨pmid, pbid, ph, pdraw, pa, psrc⟩ := prev
  rcases dr with _ | nd <;> rcases pdraw with _ | pd <;>
    · simp only []
      split_ifs with h1 h2 h3 <;> simp_all

/-- C4 (witness): a home-price move of 2.0 beyond the tolerance triggers a
write. -/
theorem C4_witness :
    YouBet.odds_changed ⟨[], [], [], [⟨1, 1, 2, none, 3, "odds_api"⟩], []⟩ 1 1 4 none 3
      = true :=
  (C4_odds_changed_iff ⟨[], [], [], [⟨1, 1, 2, none, 3, "odds_api"⟩], []⟩ 1 1
      ⟨1, 1, 2, none, 3, "odds_api"⟩ 4 none 3 (by decide)).mpr
    (Or.inl (by rw [show |(2 : ℚ) - 4| = 2 by rw [abs_sub_comm]; norm_num]; norm_num))

/-- C4 (counterexample): with stored triple (2.0, absent, 3.0) and new
triple (2.0, 3.5, 3.0) — a draw price appearing where the stored draw was
absent — the change check returns false, so no snapshot is written, while
the claim demands a write. -/
theorem C4_counterexample :
    YouBet.lastSnapshot ⟨[], [], [], [⟨1, 1, 2, none, 3, "odds_api"⟩], []⟩ 1 1 =
      some ⟨1, 1, 2, none, 3, "odds_api"⟩ ∧
    YouBet.odds_changed ⟨[], [], [], [⟨1, 1, 2, none, 3, "odds_api"⟩], []⟩ 1 1 2
      (some (7/2)) 3 = false := by
  refine ⟨by decide, ?_⟩
  rw [YouBet.odds_changed_some ⟨[], [], [], [⟨1, 1, 2, none, 3, "odds_api"⟩], []⟩ 1 1
    ⟨1, 1, 2, none, 3, "odds_api"⟩ 2 (some (7/2)) 3 (by decide)]
  rw [if_neg (by rw [sub_self, abs_zero]; norm_num), if_neg (by decide),
    if_neg (by rw [sub_self, abs_zero]; norm_num)]

namespace YouBet

theorem gocl_odds (db : DB) (key name : String) (country : Option String) :
    (get_or_create_league db key name country).2.odds = db.odds := by
  rw [get_or_create_league]
  cases db.leagues.find? (fun l => l.key == key) <;> rfl

theorem gocb_odds (db : DB) (key name : String) :
    (get_or_create_bookmaker db key name).2.odds = db.odds := by
  rw [get_or_create_bookmaker]
  cases db.bookmakers.find? (fun b => b.key == key) <;> rfl

theorem gocm_odds (db : DB) (league_id : ℕ) (home away : String) (ct : ℤ)
    (ext : Option String) :
    (get_or_create_match db league_id home away ct ext).2.odds = db.odds := by
  rw [get_or_create_match]
  cases db.fixtures.find? (fun m =>
      m.home_team == home && m.away_team == away && m.commence_time == ct) with
  | none => rfl
  | some m => cases ext <;> rfl

theorem odds_ext_trans {l1 l2 l3 : List OddsRow}
    (h1 : ∃ t, l1 ++ t = l2) (h2 : ∃ t, l2 ++ t = l3) : ∃ t, l1 ++ t = l3 := by
  obtain ⟨t1, ht1⟩ := h1
  obtain ⟨t2, ht2⟩ := h2
  exact ⟨t1 ++ t2, by rw [← List.append_assoc, ht1, ht2]⟩

theorem processOddsOne_odds (db : DB) (mid : ℕ) (oi : OddsInfo) :
    ∃ t, db.odds ++ t = (processOddsOne db mid oi).1.odds := by
  rw [processOddsOne]
  by_cases hc : odds_changed (get_or_create_bookmaker db oi.bookmaker_key oi.bookmaker_name).2
      mid (get_or_create_bookmaker db oi.bookmaker_key oi.bookmaker_name).1
      oi.home_win oi.draw oi.away_win = true
  · rw [if_pos hc]
    refine ⟨[⟨mid, (get_or_create_bookmaker db oi.bookmaker_key oi.bookmaker_name).1,
      oi.home_win, oi.draw, oi.away_win, "odds_api"⟩], ?_⟩
    rw [insert_odds]
    rw [gocb_odds]
  · rw [if_neg hc]
    exact ⟨[], by rw [List.append_nil, gocb_odds]⟩

theorem processOddsList_odds (mid : ℕ) (l : List (Option OddsInfo)) :
    ∀ db : DB, ∃ t, db.odds ++ t = (processOddsList db mid l).1.odds := by
  induction l with
  | nil => exact fun db => ⟨[], List.append_nil _⟩
  | cons x rest ih =>
    intro db
    cases x with
    | none => exact ⟨[], List.append_nil _⟩
    | some oi =>
      exact odds_ext_trans (processOddsOne_odds db mid oi)
        (ih (processOddsOne db mid oi).1)

theorem processUnit_odds (db : DB) (u : FetchedMatch) :
    ∃ t, db.odds ++ t = (processUnit db u).1.odds := by
  simp only [processUnit]
  set rl := get_or_create_league db u.league_key u.league_name u.league_country with hrl
  set rm := get_or_create_match rl.2 rl.1 u.match_info.home_team u.match_info.away_team
    u.match_info.commence_time u.match_info.external_id with hrm
  obtain ⟨t, ht⟩ := processOddsList_odds rm.1 u.odds_list rm.2
  refine ⟨t, ?_⟩
  rw [← ht]
  have h2 : rm.2.odds = rl.2.odds := by
    rw [hrm]; exact gocm_odds rl.2 rl.1 _ _ _ _
  have h1 : rl.2.odds = db.odds := by
    rw [hrl]; exact gocl_odds db _ _ _
  rw [h2, h1]

end YouBet

/-- C3 (amended): an error inside a unit is counted in the error tally and
processing continues with the next unit — but it continues from the unit's
post-error state, not a rolled-back one: each write commits individually,
and the odds snapshots written before the error persist (the pre-unit odds
list stays a prefix of the post-unit odds list). -/
theorem C3_error_tallied_and_run_continues (db : YouBet.DB) (u : YouBet.FetchedMatch)
    (rest : List YouBet.FetchedMatch) :
    (YouBet.collect_odds_from_api db (u :: rest)).2.errors =
      (if (YouBet.processUnit db u).2.2 then 1 else 0) +
        (YouBet.collect_odds_from_api (YouBet.processUnit db u).1 rest).2.errors ∧
    (YouBet.collect_odds_from_api db (u :: rest)).1 =
      (YouBet.collect_odds_from_api (YouBet.processUnit db u).1 rest).1 ∧
    ∃ t, db.odds ++ t = ((YouBet.processUnit db u).1).odds :=
  ⟨rfl, rfl, YouBet.processUnit_odds db u⟩

/-- C3 (counterexample): a unit whose second bookmaker record is malformed
is tallied as an error, yet the store is NOT unchanged — the league,
fixture, bookmaker and first odds snapshot written before the failure are
not rolled back, contradicting the claimed all-or-nothing atomicity. -/
theorem C3_counterexample :
    (YouBet.processUnit ⟨[], [], [], [], []⟩
        ⟨"epl", "Premier League", some "England", ⟨"Arsenal", "Chelsea", 0, none⟩,
          [some ⟨"bk", "Bookie", 2, some 3, 4⟩, none]⟩).2.2 = true ∧
    (YouBet.processUnit ⟨[], [], [], [], []⟩
        ⟨"epl", "Premier League", some "England", ⟨"Arsenal", "Chelsea", 0, none⟩,
          [some ⟨"bk", "Bookie", 2, some 3, 4⟩, none]⟩).1 ≠ ⟨[], [], [], [], []⟩ := by
  decide

/-- C9: result reconciliation is idempotent — when the matched fixture
already has a result, the reconciler writes nothing (the store is
unchanged) and counts the report as matched but not updated; when it has
none, the result row is appended with outcome derived from the scores
(home > away gives home, away > home gives away, else draw) and the
fixture's status becomes completed. -/
theorem C9_reconciliation_idempotent (db : YouBet.DB) (rep : YouBet.ResultReport)
    (mid : ℕ) (h : YouBet.findMatchId db rep = some mid) :
    (YouBet.hasResult db mid = true →
      YouBet.processReport db rep = (db, true, false, false)) ∧
    (YouBet.hasResult db mid = false →
      YouBet.processReport db rep =
        (YouBet.insert_result db mid rep.home_score rep.away_score (some "espn"),
          true, true, false) ∧
      (YouBet.insert_result db mid rep.home_score rep.away_score (some "espn")).results =
        db.results ++ [⟨mid, rep.home_score, rep.away_score,
          if rep.home_score > rep.away_score then "home"
          else if rep.away_score > rep.home_score then "away" else "draw",
          some "espn"⟩] ∧
      ∀ m ∈ (YouBet.insert_result db mid rep.home_score rep.away_score
          (some "espn")).fixtures, m.id = mid → m.status = "completed") := by
  constructor
  · intro hr
    simp [YouBet.processReport, h, hr]
  · intro hr
    refine ⟨by simp [YouBet.processReport, h, hr], ?_, ?_⟩
    · rw [YouBet.insert_result]
      have hall : ∀ r ∈ db.results, (!(r.match_id == mid)) = true := by
        intro r hr2
        have hb : (r.match_id == mid) = false := by
          by_cases hb2 : (r.match_id == mid) = true
          · exact absurd (List.any_eq_true.mpr ⟨r, hr2, hb2⟩)
              (by rw [YouBet.hasResult] at hr; rw [hr]; exact Bool.false_ne_true)
          · exact Bool.eq_false_iff.mpr hb2
        rw [hb]
        rfl
      rw [List.filter_eq_self.mpr hall]
    · intro m hm hid
      rw [YouBet.insert_result] at hm
      obtain ⟨m0, hm0, heq⟩ := List.mem_map.mp hm
      by_cases h0 : (m0.id == mid) = true
      · rw [if_pos h0] at heq
        rw [← heq]
      · rw [if_neg h0] at heq
        rw [← heq] at hid
        exact absurd (beq_iff_eq.mpr hid) h0

/-- C9 (witness): re-running a report against a fixture that already has a
result is a no-op counted as matched but not updated. -/
theorem C9_witness :
    YouBet.processReport
      ⟨[], [], [⟨1, 1, "manchester united", "manchester city", 0, "upcoming", none⟩], [],
        [⟨1, 2, 0, "home", some "espn"⟩]⟩
      ⟨"Man United", "Man City", 2, 0⟩ =
      (⟨[], [], [⟨1, 1, "manchester united", "manchester city", 0, "upcoming", none⟩], [],
        [⟨1, 2, 0, "home", some "espn"⟩]⟩, true, false, false) :=
  (C9_reconciliation_idempotent _ _ 1 (by decide)).1 (by decide)

namespace YouBet

theorem updateByName_keys (acc : List (String × BkRow × ℚ)) (name : String)
    (r : BkRow) (ov : ℚ) :
    (updateByName acc name r ov).map Prod.fst =
      if name ∈ acc.map Prod.fst then acc.map Prod.fst
      else acc.map Prod.fst ++ [name] := by
  induction acc with
  | nil => simp [updateByName]
  | cons p rest ih =>
    obtain ⟨n, r0, v0⟩ := p
    by_cases hn : n = name
    · subst hn
      rw [updateByName, if_pos rfl]
      by_cases hov : ov < v0 <;> simp [hov]
    · rw [updateByName, if_neg hn]
      by_cases hm : name ∈ rest.map Prod.fst
      · simp [hm, ih, Ne.symm hn]
      · simp [hm, ih, Ne.symm hn]

theorem updateByName_keys_mem (acc : List (String × BkRow × ℚ)) (name : String)
    (r : BkRow) (ov : ℚ) :
    name ∈ (updateByName acc name r ov).map Prod.fst := by
  rw [updateByName_keys]
  by_cases h : name ∈ acc.map Prod.fst <;> simp [h]

theorem updateByName_keys_subset (acc : List (String × BkRow × ℚ)) (name : String)
    (r : BkRow) (ov : ℚ) :
    ∀ k ∈ acc.map Prod.fst, k ∈ (updateByName acc name r ov).map Prod.fst := by
  rw [updateByName_keys]
  by_cases h : name ∈ acc.map Prod.fst
  · simp [h]
  · intro k hk
    rw [if_neg h]
    exact List.mem_append_left _ hk

theorem updateByName_keys_nodup (acc : List (String × BkRow × ℚ)) (name : String)
    (r : BkRow) (ov : ℚ) (h : (acc.map Prod.fst).Nodup) :
    ((updateByName acc name r ov).map Prod.fst).Nodup := by
  rw [updateByName_keys]
  by_cases hm : name ∈ acc.map Prod.fst
  · simpa [hm] using h
  · rw [if_neg hm]
    exact h.append (List.nodup_singleton name)
      (fun a ha hb => hm ((List.mem_singleton.mp hb) ▸ ha))

theorem GoodEntry_extend {seen : List BkRow} {q : String × BkRow × ℚ} (r : BkRow)
    (hq : GoodEntry seen q) (hne : q.1 ≠ r.bookmaker) :
    GoodEntry (seen ++ [r]) q := by
  obtain ⟨h1, h2, h3, h4⟩ := hq
  refine ⟨h1, h2, List.mem_append_left _ h3, ?_⟩
  intro r2 hr2 hb
  rcases List.mem_append.mp hr2 with hx | hx
  · exact h4 r2 hx hb
  · rw [List.mem_singleton.mp hx] at hb
    exact absurd hb.symm hne

theorem updateByName_good {seen : List BkRow} (r : BkRow)
    (acc : List (String × BkRow × ℚ)) (hnd : (acc.map Prod.fst).Nodup)
    (hgood : ∀ p ∈ acc, GoodEntry seen p)
    (hseen : ∀ x ∈ seen, x.bookmaker = r.bookmaker →
      r.bookmaker ∈ acc.map Prod.fst) :
    ∀ q ∈ updateByName acc r.bookmaker r (overround r), GoodEntry (seen ++ [r]) q := by
  induction acc with
  | nil =>
    intro q hq
    rw [updateByName] at hq
    rw [List.mem_singleton.mp hq]
    refine ⟨rfl, rfl, List.mem_append_right _ (List.mem_singleton_self r), ?_⟩
    intro r2 hr2 hb
    rcases List.mem_append.mp hr2 with hx | hx
    · exact absurd (hseen r2 hx hb) (List.not_mem_nil _)
    · rw [List.mem_singleton.mp hx]
  | cons p rest ih =>
    obtain ⟨n, r0, v0⟩ := p
    have hpgood : GoodEntry seen (n, r0, v0) := hgood _ (List.mem_cons_self _ _)
    by_cases hn : n = r.bookmaker
    · subst hn
      have hrestkeys : r.bookmaker ∉ rest.map Prod.fst := by
        simp only [List.map_cons, List.nodup_cons] at hnd
        exact hnd.1
      intro q hq
      rw [updateByName, if_pos rfl] at hq
      by_cases hov : overround r < v0
      · rw [if_pos hov] at hq
        rcases List.mem_cons.mp hq with rfl | hq2
        · refine ⟨rfl, rfl, List.mem_append_right _ (List.mem_singleton_self r), ?_⟩
          intro r2 hr2 hb
          rcases List.mem_append.mp hr2 with hx | hx
          · exact le_of_lt (lt_of_lt_of_le hov (hpgood.2.2.2 r2 hx hb))
          · rw [List.mem_singleton.mp hx]
        · refine GoodEntry_extend r (hgood _ (List.mem_cons_of_mem _ hq2)) ?_
          intro he
          exact hrestkeys (he ▸ List.mem_map_of_mem Prod.fst hq2)
      · rw [if_neg hov] at hq
        rcases List.mem_cons.mp hq with rfl | hq2
        · obtain ⟨h1, h2, h3, h4⟩ := hpgood
          refine ⟨h1, h2, List.mem_append_left _ h3, ?_⟩
          intro r2 hr2 hb
          rcases List.mem_append.mp hr2 with hx | hx
          · exact h4 r2 hx hb
          · rw [List.mem_singleton.mp hx]
            exact le_of_not_lt hov
        · refine GoodEntry_extend r (hgood _ (List.mem_cons_of_mem _ hq2)) ?_
          intro he
          exact hrestkeys (he ▸ List.mem_map_of_mem Prod.fst hq2)
    · intro q hq
      rw [updateByName, if_neg hn] at hq
      rcases List.mem_cons.mp hq with rfl | hq2
      · exact GoodEntry_extend r hpgood hn
      · have hndrest : (rest.map Prod.fst).Nodup := by
          simp only [List.map_cons, List.nodup_cons] at hnd
          exact hnd.2
        have hseenrest : ∀ x ∈ seen, x.bookmaker = r.bookmaker →
            r.bookmaker ∈ rest.map Prod.fst := by
          intro x hx hxb
          rcases List.mem_cons.mp (hseen x hx hxb) with he | he
          · exact absurd he.symm hn
          · exact he
        exact ih hndrest (fun p2 hp2 => hgood _ (List.mem_cons_of_mem _ hp2))
          hseenrest q hq2

theorem dedupAux_invariant (l : List BkRow) :
    ∀ acc seen, (∀ x ∈ l, rowTruthy x = true) →
      ((acc.map Prod.fst).Nodup ∧ (∀ p ∈ acc, GoodEntry seen p) ∧
        (∀ x ∈ seen, x.bookmaker ∈ acc.map Prod.fst)) →
      (((dedupAux acc l).map Prod.fst).Nodup ∧
        (∀ p ∈ dedupAux acc l, GoodEntry (seen ++ l) p) ∧
        (∀ x ∈ seen ++ l, x.bookmaker ∈ (dedupAux acc l).map Prod.fst)) := by
  induction l with
  | nil =>
    intro acc seen _ hinv
    simpa using hinv
  | cons r rest ih =>
    intro acc seen htr hinv
    obtain ⟨hnd, hgood, hcov⟩ := hinv
    rw [dedupAux, if_pos (htr r (List.mem_cons_self _ _))]
    have hstep := ih (updateByName acc r.bookmaker r (overround r)) (seen ++ [r])
      (fun x hx => htr x (List.mem_cons_of_mem _ hx))
      ⟨updateByName_keys_nodup acc r.bookmaker r (overround r) hnd,
        updateByName_good r acc hnd hgood
          (fun x hx hxb => hxb ▸ hcov x hx),
        by
          intro x hx
          rcases List.mem_append.mp hx with h1 | h1
          · exact updateByName_keys_subset acc r.bookmaker r (overround r) _ (hcov x h1)
          · rw [List.mem_singleton.mp h1]
            exact updateByName_keys_mem acc r.bookmaker r (overround r)⟩
    rw [List.append_assoc, List.singleton_append] at hstep
    exact hstep

end YouBet

/-- C7: on valid rows (all three prices truthy), deduplication keeps
exactly one row per distinct bookmaker name appearing in the input, every
kept row is one of the input rows, and its overround is minimal among the
input rows carrying the same bookmaker name. -/
theorem C7_deduplicate_keeps_lowest_overround (rows : List YouBet.BkRow)
    (hv : ∀ r ∈ rows, YouBet.rowTruthy r = true) :
    ((YouBet.deduplicate_bookmakers rows).map (fun r => r.bookmaker)).Nodup ∧
    (∀ n, n ∈ (YouBet.deduplicate_bookmakers rows).map (fun r => r.bookmaker) ↔
      n ∈ rows.map (fun r => r.bookmaker)) ∧
    (∀ r ∈ YouBet.deduplicate_bookmakers rows, r ∈ rows ∧
      ∀ r2 ∈ rows, r2.bookmaker = r.bookmaker →
        YouBet.overround r ≤ YouBet.overround r2) := by
  have hinv := YouBet.dedupAux_invariant rows [] [] hv
    ⟨by simp, fun p hp => absurd hp (List.not_mem_nil p),
      fun x hx => absurd hx (List.not_mem_nil x)⟩
  rw [List.nil_append] at hinv
  obtain ⟨hnd, hgood, hcov⟩ := hinv
  have hnames : (YouBet.deduplicate_bookmakers rows).map (fun r => r.bookmaker) =
      (YouBet.dedupAux [] rows).map Prod.fst := by
    rw [YouBet.deduplicate_bookmakers, List.map_map]
    exact List.map_congr_left (fun p hp => (hgood p hp).1)
  refine ⟨?_, ?_, ?_⟩
  · rw [hnames]; exact hnd
  · intro n
    rw [hnames]
    constructor
    · intro hn
      obtain ⟨p, hp, hpn⟩ := List.mem_map.mp hn
      have hg := hgood p hp
      exact List.mem_map.mpr ⟨p.2.1, hg.2.2.1, by rw [hg.1, hpn]⟩
    · intro hn
      obtain ⟨x, hx, hxn⟩ := List.mem_map.mp hn
      rw [← hxn]
      exact hcov x hx
  · intro r hr
    rw [YouBet.deduplicate_bookmakers] at hr
    obtain ⟨p, hp, hpr⟩ := List.mem_map.mp hr
    have hg := hgood p hp
    rw [← hpr]
    refine ⟨hg.2.2.1, ?_⟩
    intro r2 hr2 hb
    have := hg.2.2.2 r2 hr2 (by rw [hb, hg.1])
    rw [← hg.2.1]
    exact this

/-- C7 (witness): two "Betfair" rows with different overrounds leave
"Betfair" among the deduplicated output names. -/
theorem C7_witness :
    "Betfair" ∈ (YouBet.deduplicate_bookmakers
        [⟨"Betfair", some 2, some 4, some 4⟩,
         ⟨"Betfair", some 2, some 4, some 5⟩]).map (fun r => r.bookmaker) :=
  ((C7_deduplicate_keeps_lowest_overround
    [⟨"Betfair", some 2, some 4, some 4⟩,
     ⟨"Betfair", some 2, some 4, some 5⟩] (by decide)).2.1 "Betfair").mpr (by decide)

namespace YouBet

theorem nthD_mem : ∀ (l : List ℚ) (n : ℕ), n < l.length → nthD l n ∈ l
  | [], n, h => absurd h (Nat.not_lt_zero n)
  | _ :: _, 0, _ => List.mem_cons_self _ _
  | _ :: t, n + 1, h => List.mem_cons_of_mem _ (nthD_mem t n (Nat.lt_of_succ_lt_succ h))

theorem foldl_max_spec (xs : List ℚ) :
    ∀ x : ℚ, (xs.foldl max x = x ∨ xs.foldl max x ∈ xs) ∧
      x ≤ xs.foldl max x ∧ ∀ y ∈ xs, y ≤ xs.foldl max x := by
  induction xs with
  | nil => exact fun x => ⟨Or.inl rfl, le_refl x, fun y hy => absurd hy (List.not_mem_nil y)⟩
  | cons y ys ih =>
    intro x
    obtain ⟨hmem, hself, hbound⟩ := ih (max x y)
    refine ⟨?_, ?_, ?_⟩
    · rcases hmem with h | h
      · rcases max_choice x y with hc | hc
        · exact Or.inl (h.trans hc)
        · exact Or.inr (by rw [List.foldl_cons, h, hc]; exact List.mem_cons_self y ys)
      · exact Or.inr (List.mem_cons_of_mem y h)
    · exact le_trans (le_max_left x y) hself
    · intro z hz
      rcases List.mem_cons.mp hz with rfl | hz2
      · exact le_trans (le_max_right x z) hself
      · exact hbound z hz2

theorem maxListQ_mem {l : List ℚ} (h : l ≠ []) : maxListQ l ∈ l := by
  cases l with
  | nil => exact absurd rfl h
  | cons x xs =>
    rcases (foldl_max_spec xs x).1 with h2 | h2
    · rw [maxListQ, h2]; exact List.mem_cons_self x xs
    · exact List.mem_cons_of_mem x h2

theorem maxListQ_ge {l : List ℚ} : ∀ y ∈ l, y ≤ maxListQ l := by
  cases l with
  | nil => exact fun y hy => absurd hy (List.not_mem_nil y)
  | cons x xs =>
    intro y hy
    rcases List.mem_cons.mp hy with rfl | h2
    · exact (foldl_max_spec xs y).2.1
    · exact (foldl_max_spec xs x).2.2 y h2

theorem firstIdxOf_spec {a : ℚ} : ∀ {l : List ℚ}, a ∈ l →
    firstIdxOf a l < l.length ∧ nthD l (firstIdxOf a l) = a ∧
      ∀ j, j < firstIdxOf a l → nthD l j ≠ a := by
  intro l
  induction l with
  | nil => intro h; cases h
  | cons x xs ih =>
    intro h
    by_cases hx : x = a
    · rw [firstIdxOf, if_pos hx]
      exact ⟨Nat.succ_pos _, hx, fun j hj => absurd hj (Nat.not_lt_zero j)⟩
    · rw [firstIdxOf, if_neg hx]
      have hmem : a ∈ xs := by
        rcases List.mem_cons.mp h with h2 | h2
        · exact absurd h2.symm hx
        · exact h2
      obtain ⟨h1, h2, h3⟩ := ih hmem
      refine ⟨Nat.succ_lt_succ h1, h2, ?_⟩
      intro j hj
      cases j with
      | zero => exact hx
      | succ j2 => exact h3 j2 (Nat.lt_of_succ_lt_succ hj)

theorem filter_pred_eq (o : ℚ) : (!(o == 0) && decide (0 < o)) = decide (0 < o) := by
  by_cases h : 0 < o
  · rw [decide_eq_true h, Bool.and_true, beq_eq_false_iff_ne.mpr (ne_of_gt h)]
    rfl
  · rw [decide_eq_false h, Bool.and_false]

theorem medianQ_pos {l : List ℚ} (hne : l ≠ []) (hpos : ∀ x ∈ l, 0 < x) :
    0 < medianQ l := by
  rw [medianQ]
  have hperm := List.perm_insertionSort (· ≤ ·) l
  have hslen : (List.insertionSort (· ≤ ·) l).length = l.length := hperm.length_eq
  have hspos : ∀ x ∈ List.insertionSort (· ≤ ·) l, 0 < x :=
    fun x hx => hpos x (hperm.mem_iff.mp hx)
  have hlen0 : 0 < (List.insertionSort (· ≤ ·) l).length := by
    rw [hslen]
    exact List.length_pos.mpr hne
  by_cases hodd : (List.insertionSort (· ≤ ·) l).length % 2 = 1
  · rw [if_pos hodd]
    exact hspos _ (nthD_mem _ _ (by omega))
  · rw [if_neg hodd]
    have h2 : 2 ≤ (List.insertionSort (· ≤ ·) l).length := by
      rcases Nat.mod_two_eq_zero_or_one (List.insertionSort (· ≤ ·) l).length with h | h
      · omega
      · exact absurd h hodd
    have ha := hspos _ (nthD_mem (List.insertionSort (· ≤ ·) l)
      ((List.insertionSort (· ≤ ·) l).length / 2 - 1) (by omega))
    have hb := hspos _ (nthD_mem (List.insertionSort (· ≤ ·) l)
      ((List.insertionSort (· ≤ ·) l).length / 2) (by omega))
    linarith

theorem cip_pos {x : ℚ} (h : 0 < x) :
    calculate_implied_probability x = some (1 / x) := by
  rw [calculate_implied_probability,
    if_neg (by push_neg; exact ⟨ne_of_gt h, h⟩)]

end YouBet

/-- C8: the probability aggregator returns "no data" exactly when the price
list is empty after filtering non-positive entries; otherwise it returns
the median and mean of the (filtered) prices rounded to 2 decimal places,
the maximum price rounded to 2 decimal places paired with the bookmaker at
that maximum's first occurring index (first occurrence in original list
order), and implied probabilities 1/price for median, mean and best price,
each rounded to 4 decimal places. -/
theorem C8_probability_stats (prices : List ℚ) (names : List String) :
    (YouBet.calculate_probability_stats prices names = none ↔
      prices.filter (fun o => decide (0 < o)) = []) ∧
    (∀ st, YouBet.calculate_probability_stats prices names = some st →
      st.median_odds = YouBet.roundTo 2
        (YouBet.medianQ (prices.filter (fun o => decide (0 < o)))) ∧
      st.median_prob = some (YouBet.roundTo 4
        (1 / YouBet.medianQ (prices.filter (fun o => decide (0 < o))))) ∧
      st.mean_odds = YouBet.roundTo 2
        ((prices.filter (fun o => decide (0 < o))).sum /
          ((prices.filter (fun o => decide (0 < o))).length : ℚ)) ∧
      st.mean_prob = some (YouBet.roundTo 4
        (1 / ((prices.filter (fun o => decide (0 < o))).sum /
          ((prices.filter (fun o => decide (0 < o))).length : ℚ)))) ∧
      st.best_odds = YouBet.roundTo 2 (YouBet.maxListQ prices) ∧
      st.best_prob = some (YouBet.roundTo 4 (1 / YouBet.maxListQ prices)) ∧
      YouBet.maxListQ prices ∈ prices ∧
      (∀ p ∈ prices, p ≤ YouBet.maxListQ prices) ∧
      ∃ i, i < prices.length ∧ YouBet.nthD prices i = YouBet.maxListQ prices ∧
        (∀ j, j < i → YouBet.nthD prices j ≠ YouBet.maxListQ prices) ∧
        st.best_bookmaker = YouBet.optNth names i) := by
  have hfun : (fun o : ℚ => !(o == 0) && decide (0 < o)) =
      (fun o : ℚ => decide (0 < o)) :=
    funext YouBet.filter_pred_eq
  constructor
  · constructor
    · intro h
      simp only [YouBet.calculate_probability_stats, hfun] at h
      split_ifs at h with h1 h2
      · rw [List.isEmpty_iff.mp h1, List.filter_nil]
      · exact List.isEmpty_iff.mp h2
    · intro h
      simp only [YouBet.calculate_probability_stats, hfun]
      by_cases h0 : prices.isEmpty = true
      · rw [if_pos h0]
      · rw [if_neg h0, if_pos (show (prices.filter fun o => decide (0 < o)).isEmpty = true
          by rw [h]; rfl)]
  · intro st h
    simp only [YouBet.calculate_probability_stats, hfun] at h
    by_cases h0 : prices.isEmpty = true
    · rw [if_pos h0] at h; cases h
    · rw [if_neg h0] at h
      by_cases h1 : (prices.filter (fun o => decide (0 < o))).isEmpty = true
      · rw [if_pos h1] at h; cases h
      · rw [if_neg h1] at h
        have hst := Option.some_inj.mp h
        subst hst
        have hvne : prices.filter (fun o => decide (0 < o)) ≠ [] := by
          intro hx; rw [hx] at h1; exact h1 rfl
        have hpne : prices ≠ [] := by
          intro hx; rw [hx] at h0; exact h0 rfl
        have hvpos : ∀ x ∈ prices.filter (fun o => decide (0 < o)), 0 < x :=
          fun x hx => of_decide_eq_true (List.mem_filter.mp hx).2
        have hvsub : ∀ x ∈ prices.filter (fun o => decide (0 < o)), x ∈ prices :=
          fun x hx => (List.mem_filter.mp hx).1
        have hmaxmem : YouBet.maxListQ prices ∈ prices := YouBet.maxListQ_mem hpne
        have hmaxpos : 0 < YouBet.maxListQ prices := by
          obtain ⟨y, hy⟩ := List.exists_mem_of_ne_nil _ hvne
          exact lt_of_lt_of_le (hvpos y hy) (YouBet.maxListQ_ge y (hvsub y hy))
        have hmedpos : 0 < YouBet.medianQ (prices.filter (fun o => decide (0 < o))) :=
          YouBet.medianQ_pos hvne hvpos
        have hmeanpos : 0 < (prices.filter (fun o => decide (0 < o))).sum /
            ((prices.filter (fun o => decide (0 < o))).length : ℚ) := by
          apply div_pos
          · exact List.sum_pos _ hvpos hvne
          · exact_mod_cast List.length_pos.mpr hvne
        obtain ⟨hi1, hi2, hi3⟩ := YouBet.firstIdxOf_spec hmaxmem
        refine ⟨rfl, ?_, rfl, ?_, ?_, ?_, hmaxmem,
          fun p hp => YouBet.maxListQ_ge p hp, ?_⟩
        · rw [YouBet.cip_pos hmedpos]; rfl
        · rw [YouBet.cip_pos hmeanpos]; rfl
        · exact congrArg (YouBet.roundTo 2) hi2
        · rw [hi2, YouBet.cip_pos hmaxpos]; rfl
        · exact ⟨YouBet.firstIdxOf (YouBet.maxListQ prices) prices, hi1, hi2, hi3, rfl⟩

/-- C8 (witness): a list whose entries are all non-positive yields "no
data". -/
theorem C8_witness :
    YouBet.calculate_probability_stats [(0 : ℚ), -1] ["A", "B"] = none :=
  (C8_probability_stats [(0 : ℚ), -1] ["A", "B"]).1.mpr (by decide)
